import Mathlib

/-!
Verification of the `cloudglog` logging package (src/logging.go).

Shallow embedding conventions:
* Go byte strings are modelled as `List Char` (the log lines are ASCII).
* Go slices of strings are `List (List Char)`.
* A Go function that can panic at runtime (out-of-bounds indexing, nil
  pointer dereference) is modelled as returning `Option _` / an explicit
  outcome type, where `none` (resp. a panic constructor) marks the panic.
* Package-global mutable state (`Format`, `colorFormating`, `LogLevel`) is
  passed as an explicit argument to the functions that read it.
-/

set_option autoImplicit false

namespace Cloudglog

/-- Severity enumeration, from `type logType int` with constants
`TRACE, INFO, WARNING, ERROR, FATAL` (iota). -/
inductive logType : Type
  | TRACE
  | INFO
  | WARNING
  | ERROR
  | FATAL
deriving DecidableEq

/-- Color scheme enumeration, from `type colorFormat int` with constants
`NoColor, PrefixColor, PrefixBoldColor, FullColor, FullBoldColor,
FullColorWithBoldMessage, FullColorWithBoldPrefix` (iota).  The last
constructor is the source's `FullColorWithBoldPrefix`; its Lean name carries
a trailing `C` only because of a lexical restriction on identifiers here. -/
inductive colorFormat : Type
  | NoColor
  | PrefixColor
  | PrefixBoldColor
  | FullColor
  | FullBoldColor
  | FullColorWithBoldMessage
  | FullColorWithBoldPrefixC
deriving DecidableEq

/-- Go `ColorBlack ... ColorWhite`: `colorType` constants `iota + 30`. -/
def ColorBlack : Nat := 30

def ColorRed : Nat := 31

def ColorGreen : Nat := 32

def ColorYellow : Nat := 33

def ColorBlue : Nat := 34

def ColorMagenta : Nat := 35

def ColorCyan : Nat := 36

def ColorWhite : Nat := 37

/-- Go `colorSeq`: `fmt.Sprintf("\033[%dm", int(color))`. -/
def colorSeq (color : Nat) : List Char :=
  "\x1b[".data ++ (Nat.repr color).data ++ "m".data

/-- Go `colorSeqBold`: `fmt.Sprintf("\033[%d;1m", int(color))`. -/
def colorSeqBold (color : Nat) : List Char :=
  "\x1b[".data ++ (Nat.repr color).data ++ ";1m".data

/-- The `colors` array: non-bold color sequence per severity. -/
def colors (lType : logType) : List Char :=
  match lType with
  | .TRACE => colorSeq ColorCyan
  | .INFO => colorSeq ColorGreen
  | .WARNING => colorSeq ColorYellow
  | .ERROR => colorSeq ColorRed
  | .FATAL => colorSeq ColorMagenta

/-- The `boldcolors` array: bold color sequence per severity. -/
def boldcolors (lType : logType) : List Char :=
  match lType with
  | .TRACE => colorSeqBold ColorCyan
  | .INFO => colorSeqBold ColorGreen
  | .WARNING => colorSeqBold ColorYellow
  | .ERROR => colorSeqBold ColorRed
  | .FATAL => colorSeqBold ColorMagenta

/-- The ANSI reset sequence `"\033[0m"` used throughout `addColor`. -/
def resetSeq : List Char := "\x1b[0m".data

/-- Go `addColor(lType, prefixEnd, message)`, with the package global
`colorFormating` passed explicitly.  In Go the branches that assign to
`message[prefixEnd]` would panic when `prefixEnd` is out of bounds; every
call site passes `prefixEnd ∈ {2, 3}` on a slice of length ≥ 4, so the
total `List.set` / `List.getD` used here agree with the source there. -/
def addColor (colorFormating : colorFormat) (lType : logType) (prefixEnd : Nat)
    (message : List (List Char)) : List (List Char) :=
  match colorFormating with
  | .NoColor => message
  | .PrefixColor =>
      let col := colors lType
      col :: message.set prefixEnd (message.getD prefixEnd [] ++ resetSeq)
  | .PrefixBoldColor =>
      let col := boldcolors lType
      col :: message.set prefixEnd (message.getD prefixEnd [] ++ resetSeq)
  | .FullColor =>
      let col := colors lType
      (col :: message) ++ [resetSeq]
  | .FullBoldColor =>
      let col := boldcolors lType
      (col :: message) ++ [resetSeq]
  | .FullColorWithBoldMessage =>
      let col := colors lType
      let bcol := boldcolors lType
      (col :: message.set prefixEnd (message.getD prefixEnd [] ++ bcol)) ++ [resetSeq]
  | .FullColorWithBoldPrefixC =>
      let col := colors lType
      let bcol := boldcolors lType
      (bcol :: message.set prefixEnd (message.getD prefixEnd [] ++ col)) ++ [resetSeq]

/-- The split predicate `stringSplit` of both `Write` methods:
`func(r rune) bool { return r == ' ' }`. -/
def stringSplit (r : Char) : Bool := r = ' '

/-- The split predicate `longFileSplit` of `modernLogger.Write`:
`func(r rune) bool { return r == '/' || r == ':' }`. -/
def longFileSplit (r : Char) : Bool := r = '/' || r = ':'

/-- Go `strings.FieldsFunc`: split on the characters satisfying `p`,
discarding empty fields. -/
def FieldsFunc (p : Char → Bool) : List Char → List (List Char)
  | [] => []
  | c :: cs =>
    if p c then FieldsFunc p cs
    else
      match cs with
      | [] => [[c]]
      | d :: _ =>
        if p d then [c] :: FieldsFunc p cs
        else
          match FieldsFunc p cs with
          | [] => [[c]]
          | t :: ts => (c :: t) :: ts

/-- Go `strings.Join(elems, sep)`. -/
def Join (sep : List Char) : List (List Char) → List Char
  | [] => []
  | [t] => t
  | t :: ts => t ++ sep ++ Join sep ts

/-- The prefix-sniffing step shared by both `Write` methods, applied to
`format[3]`: `formatByte := []byte(format[3]); prefixEnd := 2;
if formatByte[0] == '/' && formatByte[len(formatByte)-1] == ':'
{ prefixEnd = 3 }`.  `none` marks the panic of indexing an empty token
(unreachable: `strings.FieldsFunc` never yields an empty field). -/
def prefixEndOf (t3 : List Char) : Option Nat :=
  match t3.head?, t3.getLast? with
  | some first, some last =>
      some (if first = '/' ∧ last = ':' then 3 else 2)
  | _, _ => none

/-- The value `prefixEnd` computed by `defaultLogger.Write` and
`modernLogger.Write` on a raw line: tokenize, index token 3
(`none` marks the out-of-bounds panic when fewer than 4 fields exist),
then sniff its first and last byte. -/
def linePrefixEnd (raw : List Char) : Option Nat :=
  match (FieldsFunc stringSplit raw)[3]? with
  | none => none
  | some t3 => prefixEndOf t3

/-- Go `(*defaultLogger).Write`, with the globals passed explicitly.
`none` marks a runtime panic; `some out` is the byte sequence forwarded
to the underlying sink `d.out`. -/
def defaultLoggerWrite (lt : logType) (cf : colorFormat) (raw : List Char) :
    Option (List Char) :=
  let format := FieldsFunc stringSplit raw
  match linePrefixEnd raw with
  | none => none
  | some prefixEnd => some (Join " ".data (addColor cf lt prefixEnd format))

/-- The location-token rewriting step of `modernLogger.Write`:
`subFormat := strings.FieldsFunc(format[prefixEnd], longFileSplit);
copy(modernLongFile, subFormat[len(subFormat)-3:]);
format[prefixEnd] = strings.Join([]string{"[", m0, "]", "[", m1, "]",
"[:", m2, "]", "\t"}, "")`.  The slice `subFormat[len(subFormat)-3:]`
panics in Go when `subFormat` has fewer than 3 elements (`none` here);
otherwise `modernLongFile` holds exactly the last three components. -/
def modernRewrite (format : List (List Char)) (prefixEnd : Nat)
    (loc : List Char) : Option (List (List Char)) :=
  let subFormat := FieldsFunc longFileSplit loc
  if subFormat.length < 3 then none
  else
    let modernLongFile := subFormat.drop (subFormat.length - 3)
    let m0 := modernLongFile.getD 0 []
    let m1 := modernLongFile.getD 1 []
    let m2 := modernLongFile.getD 2 []
    some (format.set prefixEnd
      (Join [] ["[".data, m0, "]".data, "[".data, m1, "]".data,
        "[:".data, m2, "]".data, "\t".data]))

/-- Go `(*modernLogger).Write`, with the globals passed explicitly.
`none` marks a runtime panic; `some out` is the byte sequence forwarded
to the underlying sink `m.out`. -/
def modernLoggerWrite (lt : logType) (cf : colorFormat) (raw : List Char) :
    Option (List Char) :=
  let format := FieldsFunc stringSplit raw
  match linePrefixEnd raw with
  | none => none
  | some prefixEnd =>
    match format[prefixEnd]? with
    | none => none
    | some loc =>
      match modernRewrite format prefixEnd loc with
      | none => none
      | some format2 => some (Join " ".data (addColor cf lt prefixEnd format2))

/-- Go `V(level)`, with the package global `LogLevel` passed explicitly.
Returns `Verbose(true)` iff `LogLevel >= level` (Go `int`s, modelled as
`Int`). -/
def V (logLevel level : Int) : Bool :=
  if logLevel ≥ level then true else false

/-- Go `type Verbose bool`. -/
abbrev Verbose := Bool

/-- Go `DefaultFormat`: `formatType` constant `iota` = 0.  `formatType` is a Go
`int`, so it is modelled as `Int`; values other than the two named
constants are possible and are mapped to `ioutil.Discard` by `LogFilter`. -/
def DefaultFormat : Int := 0

/-- Go `ModernFormat`: `formatType` constant `iota` = 1. -/
def ModernFormat : Int := 1

/-- The sink value returned by `LogFilter`: a `*defaultLogger` or a
`*modernLogger` (each capturing its severity at construction), or
`ioutil.Discard`. -/
inductive Sink : Type
  | defaultL (ltype : logType)
  | modernL (ltype : logType)
  | discard
deriving DecidableEq

/-- Go `LogFilter(w, ltype)`, with the package global `Format` passed
explicitly: the `switch Format` happens here, at sink construction time,
and the chosen concrete logger type is what the sink keeps. -/
def LogFilter (Format : Int) (ltype : logType) : Sink :=
  if Format = DefaultFormat then Sink.defaultL ltype
  else if Format = ModernFormat then Sink.modernL ltype
  else Sink.discard

/-- Result of one `Write` call on a sink: bytes forwarded to the underlying
destination, silently discarded (`ioutil.Discard`), or a runtime panic. -/
inductive WriteResult : Type
  | forwarded (bytes : List Char)
  | discarded
  | panicked
deriving DecidableEq

/-- One `Write` through a sink built by `LogFilter`.  The dispatch is on
the sink's own concrete type; the write path never consults the global
`Format` again. -/
def sinkWrite (s : Sink) (cf : colorFormat) (raw : List Char) : WriteResult :=
  match s with
  | .defaultL lt =>
    match defaultLoggerWrite lt cf raw with
    | some b => WriteResult.forwarded b
    | none => WriteResult.panicked
  | .modernL lt =>
    match modernLoggerWrite lt cf raw with
    | some b => WriteResult.forwarded b
    | none => WriteResult.panicked
  | .discard => WriteResult.discarded

/-- Go `setupLogger` rebuilds the five named loggers; per severity the stored
write destination is `LogFilter(handle, severity)` under the current
`Format`. -/
def setupLogger (Format : Int) : logType → Sink := fun ltype => LogFilter Format ltype

/-- The package-level mutable state relevant to layout: the `Format`
variable together with the five constructed logger sinks. -/
structure LoggerState : Type where
  Format : Int
  sinks : logType → Sink

/-- Go `SetFormat(format)`: assigns the global `Format` and immediately
rebuilds all five loggers via `setupLogger`. -/
def SetFormat (st : LoggerState) (format : Int) : LoggerState :=
  { Format := format, sinks := setupLogger format }

/-- A write through the severity logger held in state `st`: the standard
line logger composes the raw line and hands it to the stored sink. -/
def stateWrite (st : LoggerState) (ltype : logType) (cf : colorFormat)
    (raw : List Char) : WriteResult :=
  sinkWrite (st.sinks ltype) cf raw

/-- One observable side effect of a public logging call: a line handed to a
severity logger's `Output` (ultimately written through its sink), or a
call to `os.Exit`. -/
inductive Event : Type
  | write (ltype : logType) (msg : List Char)
  | exit (code : Nat)
deriving DecidableEq

/-- The shared newline-completion step of `Infof`, `Errorf`, `Fatalf` and
`Exitf` (and their `Verbose` counterparts): after `fmt.Fprintf` into a
fresh buffer the code reads `buf.Bytes()[buf.Len()-1]` with no length
check, so an empty formatted result indexes out of bounds (`none`);
otherwise a trailing newline is appended exactly when missing. -/
def printfNewline (formatted : List Char) : Option (List Char) :=
  match formatted.getLast? with
  | none => none
  | some c => if c = '\n' then some formatted else some (formatted ++ ['\n'])

/-- Go `Fatal(args...)`: one `Output` call on `fatalLog`; no `os.Exit`.
`msg` stands for the `fmt.Sprint` result (argument formatting is
delegation, out of scope). -/
def Fatal (msg : List Char) : List Event := [Event.write logType.FATAL msg]

/-- Go `FatalDepth(depth, args...)`: the depth only affects source-location
attribution, not the emitted effects. -/
def FatalDepth (depth : Int) (msg : List Char) : List Event :=
  [Event.write logType.FATAL msg]

/-- Go `Fatalln(args...)`: one `Output` call on `fatalLog`; no `os.Exit`. -/
def Fatalln (msg : List Char) : List Event := [Event.write logType.FATAL msg]

/-- Go `Fatalf(format, args...)`: newline completion, then one `Output` call
on `fatalLog`; no `os.Exit`. -/
def Fatalf (formatted : List Char) : Option (List Event) :=
  (printfNewline formatted).map fun m => [Event.write logType.FATAL m]

/-- Go `Exit(args...)`: `Output` on `fatalLog`, then `os.Exit(1)`. -/
def Exit (msg : List Char) : List Event :=
  [Event.write logType.FATAL msg, Event.exit 1]

/-- Go `ExitDepth(depth, args...)`: `Output` on `fatalLog`, then `os.Exit(1)`. -/
def ExitDepth (depth : Int) (msg : List Char) : List Event :=
  [Event.write logType.FATAL msg, Event.exit 1]

/-- Go `Exitln(args...)`: `Output` on `fatalLog`, then `os.Exit(1)`. -/
def Exitln (msg : List Char) : List Event :=
  [Event.write logType.FATAL msg, Event.exit 1]

/-- Go `Exitf(format, args...)`: newline completion, `Output` on `fatalLog`,
then `os.Exit(1)`. -/
def Exitf (formatted : List Char) : Option (List Event) :=
  (printfNewline formatted).map fun m =>
    [Event.write logType.FATAL m, Event.exit 1]

/-- Go `Infof(format, args...)`: newline completion, then `Output` on
`infoLog`. -/
def Infof (formatted : List Char) : Option (List Event) :=
  (printfNewline formatted).map fun m => [Event.write logType.INFO m]

/-- Go `Errorf(format, args...)`: newline completion, then `Output` on
`errorLog`. -/
def Errorf (formatted : List Char) : Option (List Event) :=
  (printfNewline formatted).map fun m => [Event.write logType.ERROR m]

/-- Go `(v Verbose) Infof`: the same body as the global `Infof`, guarded by
`v`; an inactive token performs no effect at all. -/
def Verbose.Infof (v : Verbose) (formatted : List Char) : Option (List Event) :=
  if v then Cloudglog.Infof formatted else some []

/-- Go `(v Verbose) Errorf`: the same body as the global `Errorf`, guarded by
`v`. -/
def Verbose.Errorf (v : Verbose) (formatted : List Char) : Option (List Event) :=
  if v then Cloudglog.Errorf formatted else some []

/-- Go `(v Verbose) Fatalf`: the same body as the global `Fatalf`, guarded by
`v`. -/
def Verbose.Fatalf (v : Verbose) (formatted : List Char) : Option (List Event) :=
  if v then Cloudglog.Fatalf formatted else some []

/-- Go `(v Verbose) Exitf`: the same body as the global `Exitf`, guarded by
`v`. -/
def Verbose.Exitf (v : Verbose) (formatted : List Char) : Option (List Event) :=
  if v then Cloudglog.Exitf formatted else some []

/-- The `os.Exit` events of a trace. -/
def exitEvents (t : List Event) : List Event :=
  t.filter fun e =>
    match e with
    | Event.exit _ => true
    | _ => false

/-- The trace consists of the write of the log line followed by exactly one
`os.Exit(1)`, in that order. -/
def logsThenExitsOnce (t : List Event) : Prop :=
  ∃ msg, t = [Event.write logType.FATAL msg, Event.exit 1]

/-- The trace performs no `os.Exit` at all. -/
def neverExits (t : List Event) : Prop := exitEvents t = []

/-- Go `Char.isDigit`-based value of a nonempty all-digit run, else `none`. -/
def digitsVal (ds : List Char) : Option Nat :=
  if ds = [] then none
  else if ds.all Char.isDigit then
    some (ds.foldl (fun a c => a * 10 + (c.toNat - '0'.toNat)) 0)
  else none

/-- Go `strconv.Atoi`, on the shapes `init` cares about: an optional sign
followed by a nonempty run of decimal digits; anything else is an error
(`none`).  The only divergence from Go is that 64-bit overflow is not
modelled. -/
def Atoi (s : List Char) : Option Int :=
  match s with
  | [] => none
  | c :: ds =>
    if c = '+' then (digitsVal ds).map fun n => (n : Int)
    else if c = '-' then (digitsVal ds).map fun n => -(n : Int)
    else (digitsVal (c :: ds)).map fun n => (n : Int)

/-- Outcome of package initialization: completion with the resulting
`LogLevel`, or a runtime panic from a method call on a nil logger. -/
inductive InitOutcome : Type
  | completed (logLevel : Int)
  | nilPointerPanic
deriving DecidableEq

/-- The `init()` of `logging.go` as a function of the `LOG_LEVEL`
environment value (`os.Getenv` yields `""` when the variable is unset).
The source parses the environment FIRST and calls `setupLogger` only at
the end of `init`; the package-level `var errorLog *log.Logger` is still
`nil` in the `strconv.Atoi` error branch, so the `Error(...)` call there
invokes `(*log.Logger).Output` on a nil receiver and panics instead of
emitting the fallback line. -/
def initLogging (logLevelEnv : List Char) : InitOutcome :=
  if logLevelEnv.length = 0 then InitOutcome.completed 0
  else
    match Atoi logLevelEnv with
    | some n => InitOutcome.completed n
    | none => InitOutcome.nilPointerPanic

end Cloudglog

namespace Cloudglog

/-! ### Properties of the tokenizer `FieldsFunc` and of `Join` -/

/-- One-step unfolding: a leading separator is skipped. -/
theorem fieldsFunc_cons_of_sep (p : Char → Bool) {c : Char} (cs : List Char)
    (hc : p c = true) : FieldsFunc p (c :: cs) = FieldsFunc p cs := by
  rw [FieldsFunc.eq_def]
  cases cs <;> simp [hc]

/-- One-step unfolding: a single non-separator character is one field. -/
theorem fieldsFunc_single_of_not (p : Char → Bool) {c : Char}
    (hc : p c = false) : FieldsFunc p [c] = [[c]] := by
  rw [FieldsFunc.eq_def]
  simp [hc]

/-- One-step unfolding: a non-separator followed by a separator closes the
first field. -/
theorem fieldsFunc_cons_cons_sep (p : Char → Bool) {c d : Char} (ds : List Char)
    (hc : p c = false) (hd : p d = true) :
    FieldsFunc p (c :: d :: ds) = [c] :: FieldsFunc p (d :: ds) := by
  rw [FieldsFunc.eq_def]
  simp [hc, hd]

/-- One-step unfolding: two adjacent non-separators extend the first field. -/
theorem fieldsFunc_cons_cons_not (p : Char → Bool) {c d : Char} (ds : List Char)
    (hc : p c = false) (hd : p d = false) :
    FieldsFunc p (c :: d :: ds) =
      (match FieldsFunc p (d :: ds) with
       | [] => [[c]]
       | t :: ts => (c :: t) :: ts) := by
  rw [FieldsFunc.eq_def]
  simp [hc, hd]

/-- Every field produced by `FieldsFunc` is nonempty, contains no separator
character, and draws all its characters from the input. -/
theorem fieldsFunc_sound (p : Char → Bool) :
    ∀ l : List Char, ∀ f ∈ FieldsFunc p l, f ≠ [] ∧ ∀ c ∈ f, p c = false ∧ c ∈ l := by
  intro l
  induction l with
  | nil => intro f hf; simp [FieldsFunc] at hf
  | cons c cs ih =>
    intro f hf
    cases hp : p c with
    | true =>
      rw [fieldsFunc_cons_of_sep p cs hp] at hf
      obtain ⟨h1, h2⟩ := ih f hf
      exact ⟨h1, fun d hd => ⟨(h2 d hd).1, List.mem_cons_of_mem _ (h2 d hd).2⟩⟩
    | false =>
      cases cs with
      | nil =>
        rw [fieldsFunc_single_of_not p hp, List.mem_singleton] at hf
        subst hf
        refine ⟨by simp, ?_⟩
        intro d hd
        rw [List.mem_singleton] at hd
        subst hd
        exact ⟨hp, by simp⟩
      | cons d ds =>
        cases hpd : p d with
        | true =>
          rw [fieldsFunc_cons_cons_sep p ds hp hpd] at hf
          rcases List.mem_cons.mp hf with hf | hf
          · subst hf
            refine ⟨by simp, ?_⟩
            intro e he
            rw [List.mem_singleton] at he
            subst he
            exact ⟨hp, by simp⟩
          · obtain ⟨h1, h2⟩ := ih f hf
            exact ⟨h1, fun e he => ⟨(h2 e he).1, List.mem_cons_of_mem _ (h2 e he).2⟩⟩
        | false =>
          rcases hm : FieldsFunc p (d :: ds) with _ | ⟨t, ts⟩
          · rw [fieldsFunc_cons_cons_not p ds hp hpd, hm, List.mem_singleton] at hf
            subst hf
            refine ⟨by simp, ?_⟩
            intro e he
            rw [List.mem_singleton] at he
            subst he
            exact ⟨hp, by simp⟩
          · rw [fieldsFunc_cons_cons_not p ds hp hpd, hm] at hf
            rcases List.mem_cons.mp hf with hf | hf
            · subst hf
              have ht : t ∈ FieldsFunc p (d :: ds) := by rw [hm]; exact List.mem_cons_self t ts
              obtain ⟨_, h2⟩ := ih t ht
              refine ⟨by simp, ?_⟩
              intro e he
              rcases List.mem_cons.mp he with he | he
              · subst he; exact ⟨hp, by simp⟩
              · exact ⟨(h2 e he).1, List.mem_cons_of_mem _ (h2 e he).2⟩
            · have hts : f ∈ FieldsFunc p (d :: ds) := by rw [hm]; exact List.mem_cons_of_mem t hf
              obtain ⟨h1, h2⟩ := ih f hts
              exact ⟨h1, fun e he => ⟨(h2 e he).1, List.mem_cons_of_mem _ (h2 e he).2⟩⟩

/-- A nonempty separator-free character list tokenizes to the single field
consisting of itself. -/
theorem fieldsFunc_single (p : Char → Bool) :
    ∀ t : List Char, t ≠ [] → (∀ c ∈ t, p c = false) → FieldsFunc p t = [t] := by
  intro t
  induction t with
  | nil => intro h; exact absurd rfl h
  | cons c cs ih =>
    intro _ hclean
    have hc : p c = false := hclean c (by simp)
    cases cs with
    | nil => exact fieldsFunc_single_of_not p hc
    | cons d ds =>
      have hd : p d = false := hclean d (by simp)
      have hrec : FieldsFunc p (d :: ds) = [d :: ds] :=
        ih (by simp) fun e he => hclean e (List.mem_cons_of_mem _ he)
      rw [fieldsFunc_cons_cons_not p ds hc hd, hrec]

/-- Tokenizing `t ++ s :: r` for a nonempty separator-free `t` and a
separator `s` yields `t` followed by the fields of `r`. -/
theorem fieldsFunc_token_append (p : Char → Bool) (s : Char) (hs : p s = true) :
    ∀ t : List Char, t ≠ [] → (∀ c ∈ t, p c = false) →
      ∀ r : List Char, FieldsFunc p (t ++ s :: r) = t :: FieldsFunc p r := by
  intro t
  induction t with
  | nil => intro h; exact absurd rfl h
  | cons c cs ih =>
    intro _ hclean r
    have hc : p c = false := hclean c (by simp)
    cases cs with
    | nil =>
      simp only [List.cons_append, List.nil_append]
      rw [fieldsFunc_cons_cons_sep p r hc hs, fieldsFunc_cons_of_sep p r hs]
    | cons d ds =>
      have hd : p d = false := hclean d (by simp)
      have ihh := ih (by simp) (fun e he => hclean e (List.mem_cons_of_mem _ he)) r
      simp only [List.cons_append] at ihh ⊢
      rw [fieldsFunc_cons_cons_not p (ds ++ s :: r) hc hd, ihh]

/-- Joining nonempty separator-free fields with a separator character and
re-tokenizing recovers exactly the fields. -/
theorem fieldsFunc_join (p : Char → Bool) (s : Char) (hs : p s = true) :
    ∀ ts : List (List Char), ts ≠ [] →
      (∀ t ∈ ts, t ≠ [] ∧ ∀ c ∈ t, p c = false) →
      FieldsFunc p (Join [s] ts) = ts := by
  intro ts
  induction ts with
  | nil => intro h; exact absurd rfl h
  | cons t ts ih =>
    intro _ hclean
    obtain ⟨h1, h2⟩ := hclean t (by simp)
    cases ts with
    | nil => simpa [Join] using fieldsFunc_single p t h1 h2
    | cons t2 ts2 =>
      have hJ : Join [s] (t :: t2 :: ts2) = t ++ s :: Join [s] (t2 :: ts2) := by
        simp [Join]
      rw [hJ, fieldsFunc_token_append p s hs t h1 h2,
        ih (by simp) fun u hu => hclean u (List.mem_cons_of_mem _ hu)]

/-! ### Properties of the prefix-sniffing step -/

/-- If the write path computes a prefix end, the raw line has at least four
fields and the computed index is 2 or 3. -/
theorem prefixEndOf_mem {t3 : List Char} {pe : Nat}
    (h : prefixEndOf t3 = some pe) : pe = 2 ∨ pe = 3 := by
  unfold prefixEndOf at h
  rcases hh : t3.head? with _ | first <;> rcases hl : t3.getLast? with _ | last <;>
    rw [hh, hl] at h <;> simp at h
  split at h <;> omega

theorem linePrefixEnd_eq_some {raw : List Char} {pe : Nat}
    (h : linePrefixEnd raw = some pe) :
    4 ≤ (FieldsFunc stringSplit raw).length ∧ (pe = 2 ∨ pe = 3) := by
  unfold linePrefixEnd at h
  rcases h3 : (FieldsFunc stringSplit raw)[3]? with _ | t3
  · rw [h3] at h; exact absurd h (by simp)
  · rw [h3] at h
    exact ⟨(List.getElem?_eq_some.mp h3).1, prefixEndOf_mem h⟩

/-- Conversely, whenever the raw line has at least four fields the
prefix-sniffing step succeeds (fields are never empty, so the byte
indexing inside cannot panic). -/
theorem linePrefixEnd_isSome_of_len {raw : List Char}
    (h : 4 ≤ (FieldsFunc stringSplit raw).length) :
    ∃ t3, (FieldsFunc stringSplit raw)[3]? = some t3 ∧ t3 ≠ [] ∧
      linePrefixEnd raw =
        some (if t3.head? = some '/' ∧ t3.getLast? = some ':' then 3 else 2) := by
  have hlt : 3 < (FieldsFunc stringSplit raw).length := by omega
  have h3 : (FieldsFunc stringSplit raw)[3]? =
      some ((FieldsFunc stringSplit raw).get ⟨3, hlt⟩) :=
    List.getElem?_eq_getElem hlt
  have hmem : (FieldsFunc stringSplit raw).get ⟨3, hlt⟩ ∈ FieldsFunc stringSplit raw :=
    List.getElem?_mem h3
  have hne : (FieldsFunc stringSplit raw).get ⟨3, hlt⟩ ≠ [] :=
    (fieldsFunc_sound stringSplit raw _ hmem).1
  obtain ⟨first, hfirst⟩ := Option.isSome_iff_exists.mp (List.head?_isSome.mpr hne)
  obtain ⟨last, hlast⟩ := Option.isSome_iff_exists.mp (List.getLast?_isSome.mpr hne)
  refine ⟨_, h3, hne, ?_⟩
  simp only [List.get_eq_getElem] at hfirst hlast
  simp [linePrefixEnd, h3, prefixEndOf, hfirst, hlast]

/-- The rewrite step of `modernLogger.Write` succeeds exactly when the
location token splits into at least three components. -/
theorem modernRewrite_isSome {format : List (List Char)} {pe : Nat}
    {loc : List Char} :
    (modernRewrite format pe loc).isSome ↔
      3 ≤ (FieldsFunc longFileSplit loc).length := by
  by_cases hlen : (FieldsFunc longFileSplit loc).length < 3
  · simp only [modernRewrite, hlen, if_true, Option.isSome_none,
      Bool.false_eq_true, false_iff]
    omega
  · simp only [modernRewrite, hlen, if_false, Option.isSome_some, true_iff]
    omega

/-- Claim C5: for every tokenized line with at least four fields, the
prefix-end index is computed by inspecting the token at index 3: if its
first character is `/` and its last character is `:`, the index is 3,
otherwise it is 2. -/
theorem C5_prefixEnd_sniffing (raw : List Char)
    (h : 4 ≤ (FieldsFunc stringSplit raw).length) :
    ∃ t3, (FieldsFunc stringSplit raw)[3]? = some t3 ∧ t3 ≠ [] ∧
      ((t3.head? = some '/' ∧ t3.getLast? = some ':') →
        linePrefixEnd raw = some 3) ∧
      (¬(t3.head? = some '/' ∧ t3.getLast? = some ':') →
        linePrefixEnd raw = some 2) := by
  obtain ⟨t3, h3, hne, hpe⟩ := linePrefixEnd_isSome_of_len h
  refine ⟨t3, h3, hne, ?_, ?_⟩ <;> intro hc <;> rw [hpe] <;> simp [hc]

/-- Witness for C5 at a concrete raw log line whose fourth token is a
`log.Llongfile` location. -/
theorem C5_witness :
    4 ≤ (FieldsFunc stringSplit "INFO: 2024/01/01 00:00:00 /a/b.go:10: hi".data).length ∧
      ∃ t3, (FieldsFunc stringSplit "INFO: 2024/01/01 00:00:00 /a/b.go:10: hi".data)[3]? = some t3 ∧
        t3 ≠ [] ∧
        ((t3.head? = some '/' ∧ t3.getLast? = some ':') →
          linePrefixEnd "INFO: 2024/01/01 00:00:00 /a/b.go:10: hi".data = some 3) ∧
        (¬(t3.head? = some '/' ∧ t3.getLast? = some ':') →
          linePrefixEnd "INFO: 2024/01/01 00:00:00 /a/b.go:10: hi".data = some 2) :=
  ⟨by decide, C5_prefixEnd_sniffing "INFO: 2024/01/01 00:00:00 /a/b.go:10: hi".data (by decide)⟩

/-- Claim C9: both `Write` methods index token 3 unconditionally, so they
are panic-free iff the raw line has at least four (nonempty,
space-separated) fields; `modernLogger.Write` additionally requires the
location token at the prefix-end index to have at least three
`/`-or-`:`-separated components. -/
theorem C9_write_bounds :
    (∀ (lt : logType) (cf : colorFormat) (raw : List Char),
        (defaultLoggerWrite lt cf raw).isSome ↔
          4 ≤ (FieldsFunc stringSplit raw).length) ∧
      (∀ (lt : logType) (cf : colorFormat) (raw : List Char),
        (modernLoggerWrite lt cf raw).isSome ↔
          (4 ≤ (FieldsFunc stringSplit raw).length ∧
            ∃ pe loc, linePrefixEnd raw = some pe ∧
              (FieldsFunc stringSplit raw)[pe]? = some loc ∧
              3 ≤ (FieldsFunc longFileSplit loc).length)) := by
  constructor
  · intro lt cf raw
    constructor
    · intro hS
      rcases hpe : linePrefixEnd raw with _ | pe
      · rw [show defaultLoggerWrite lt cf raw = none by
          simp [defaultLoggerWrite, hpe]] at hS
        exact absurd hS (by simp)
      · exact (linePrefixEnd_eq_some hpe).1
    · intro h
      obtain ⟨t3, h3, hne, hpe⟩ := linePrefixEnd_isSome_of_len h
      simp [defaultLoggerWrite, hpe]
  · intro lt cf raw
    constructor
    · intro hS
      rcases hpe : linePrefixEnd raw with _ | pe
      · rw [show modernLoggerWrite lt cf raw = none by
          simp [modernLoggerWrite, hpe]] at hS
        exact absurd hS (by simp)
      · rcases hloc : (FieldsFunc stringSplit raw)[pe]? with _ | loc
        · rw [show modernLoggerWrite lt cf raw = none by
            simp [modernLoggerWrite, hpe, hloc]] at hS
          exact absurd hS (by simp)
        · rcases hrw : modernRewrite (FieldsFunc stringSplit raw) pe loc with _ | fmt2
          · rw [show modernLoggerWrite lt cf raw = none by
              simp [modernLoggerWrite, hpe, hloc, hrw]] at hS
            exact absurd hS (by simp)
          · exact ⟨(linePrefixEnd_eq_some hpe).1, pe, loc, rfl, hloc,
              modernRewrite_isSome.mp (by rw [hrw]; simp)⟩
    · rintro ⟨h4, pe, loc, hpe, hloc, h3len⟩
      have hrw : (modernRewrite (FieldsFunc stringSplit raw) pe loc).isSome :=
        modernRewrite_isSome.mpr h3len
      obtain ⟨fmt2, hfmt2⟩ := Option.isSome_iff_exists.mp hrw
      simp [modernLoggerWrite, hpe, hloc, hfmt2]

/-- The `strings.Join(..., "")` of the bracketed pieces is plain
concatenation. -/
theorem bracket_eq (m0 m1 m2 : List Char) :
    Join [] ["[".data, m0, "]".data, "[".data, m1, "]".data,
        "[:".data, m2, "]".data, "\t".data] =
      "[".data ++ m0 ++ "]".data ++ "[".data ++ m1 ++ "]".data ++
        "[:".data ++ m2 ++ "]".data ++ "\t".data := by
  simp [Join, List.append_assoc]

/-- The literal token shape `[pkg][file][:line]` followed by a tab
character, stated for the last three components of the split location
token (the claim's package-directory name, file name and line number). -/
def modernLocShape (sub : List (List Char)) : List Char :=
  "[".data ++ sub.getD (sub.length - 3) [] ++ "]".data ++
    "[".data ++ sub.getD (sub.length - 2) [] ++ "]".data ++
    "[:".data ++ sub.getD (sub.length - 1) [] ++ "]".data ++ "\t".data

/-- Claim C4: in Modern mode, for every well-formed raw line the location
token at the prefix-end index is split on `/` and `:`, only its last three
components are kept, and that single token is replaced by the literal shape
`[pkg][file][:line]` followed by a tab, while every other token is
unchanged. -/
theorem C4_modern_rewrite (raw : List Char) (lt : logType) (pe : Nat)
    (loc : List Char)
    (hpe : linePrefixEnd raw = some pe)
    (hloc : (FieldsFunc stringSplit raw)[pe]? = some loc)
    (h3 : 3 ≤ (FieldsFunc longFileSplit loc).length) :
    ∃ fmt2, modernRewrite (FieldsFunc stringSplit raw) pe loc = some fmt2 ∧
      modernLoggerWrite lt colorFormat.NoColor raw = some (Join " ".data fmt2) ∧
      fmt2.length = (FieldsFunc stringSplit raw).length ∧
      fmt2[pe]? = some (modernLocShape (FieldsFunc longFileSplit loc)) ∧
      ∀ i, i ≠ pe → fmt2[i]? = (FieldsFunc stringSplit raw)[i]? := by
  have hnlt : ¬ ((FieldsFunc longFileSplit loc).length < 3) := by omega
  have h4pe := linePrefixEnd_eq_some hpe
  have hpelt : pe < (FieldsFunc stringSplit raw).length := by
    rcases h4pe.2 with h | h <;> omega
  have hdropD : ∀ i : Nat,
      ((FieldsFunc longFileSplit loc).drop
          ((FieldsFunc longFileSplit loc).length - 3)).getD i [] =
        (FieldsFunc longFileSplit loc).getD
          ((FieldsFunc longFileSplit loc).length - 3 + i) [] := by
    intro i
    rw [List.getD_eq_getElem?_getD, List.getD_eq_getElem?_getD, List.getElem?_drop]
  have hrw : modernRewrite (FieldsFunc stringSplit raw) pe loc =
      some ((FieldsFunc stringSplit raw).set pe
        (modernLocShape (FieldsFunc longFileSplit loc))) := by
    unfold modernRewrite
    rw [if_neg hnlt]
    refine congrArg some (congrArg ((FieldsFunc stringSplit raw).set pe) ?_)
    rw [bracket_eq]
    unfold modernLocShape
    rw [hdropD 0, hdropD 1, hdropD 2]
    have e1 : (FieldsFunc longFileSplit loc).length - 3 + 0 =
        (FieldsFunc longFileSplit loc).length - 3 := by omega
    have e2 : (FieldsFunc longFileSplit loc).length - 3 + 1 =
        (FieldsFunc longFileSplit loc).length - 2 := by omega
    have e3 : (FieldsFunc longFileSplit loc).length - 3 + 2 =
        (FieldsFunc longFileSplit loc).length - 1 := by omega
    rw [e1, e2, e3]
  refine ⟨_, hrw, ?_, ?_, ?_, ?_⟩
  · simp [modernLoggerWrite, hpe, hloc, hrw, addColor]
  · simp
  · exact List.getElem?_set_eq_of_lt _ hpelt
  · intro i hi
    exact List.getElem?_set_ne (Ne.symm hi)

/-- Witness for C4 at a concrete raw log line. -/
theorem C4_witness :
    linePrefixEnd "INFO: 2024/01/01 00:00:00 /a/b.go:10: hi".data = some 3 ∧
      (FieldsFunc stringSplit "INFO: 2024/01/01 00:00:00 /a/b.go:10: hi".data)[3]? =
        some "/a/b.go:10:".data ∧
      3 ≤ (FieldsFunc longFileSplit "/a/b.go:10:".data).length ∧
      ∃ fmt2,
        modernRewrite (FieldsFunc stringSplit "INFO: 2024/01/01 00:00:00 /a/b.go:10: hi".data)
            3 "/a/b.go:10:".data = some fmt2 ∧
        modernLoggerWrite logType.INFO colorFormat.NoColor
            "INFO: 2024/01/01 00:00:00 /a/b.go:10: hi".data = some (Join " ".data fmt2) ∧
        fmt2.length =
          (FieldsFunc stringSplit "INFO: 2024/01/01 00:00:00 /a/b.go:10: hi".data).length ∧
        fmt2[3]? = some (modernLocShape (FieldsFunc longFileSplit "/a/b.go:10:".data)) ∧
        ∀ i, i ≠ 3 →
          fmt2[i]? =
            (FieldsFunc stringSplit "INFO: 2024/01/01 00:00:00 /a/b.go:10: hi".data)[i]? :=
  ⟨by decide, by decide, by decide,
    C4_modern_rewrite "INFO: 2024/01/01 00:00:00 /a/b.go:10: hi".data logType.INFO 3
      "/a/b.go:10:".data (by decide) (by decide) (by decide)⟩

/-- Character membership in the rewritten bracket token. -/
theorem mem_bracket {c : Char} {m0 m1 m2 : List Char}
    (h : c ∈ Join [] ["[".data, m0, "]".data, "[".data, m1, "]".data,
        "[:".data, m2, "]".data, "\t".data]) :
    c ∈ m0 ∨ c ∈ m1 ∨ c ∈ m2 ∨ c = '[' ∨ c = ']' ∨ c = ':' ∨ c = '\t' := by
  rw [bracket_eq] at h
  simp only [List.mem_append, List.mem_cons, List.mem_singleton,
    List.not_mem_nil, or_false, String.data] at h
  tauto

/-- All tokens produced by the Modern rewrite step are nonempty and
space-free (the three kept components come from a space-free field of the
raw line, and the added bracket characters are not spaces). -/
theorem modernRewrite_tokens_clean {raw loc : List Char} {pe : Nat}
    {fmt2 : List (List Char)}
    (hloc : (FieldsFunc stringSplit raw)[pe]? = some loc)
    (hrw : modernRewrite (FieldsFunc stringSplit raw) pe loc = some fmt2) :
    ∀ t ∈ fmt2, t ≠ [] ∧ ∀ c ∈ t, stringSplit c = false := by
  have h3 : 3 ≤ (FieldsFunc longFileSplit loc).length :=
    modernRewrite_isSome.mp (by rw [hrw]; simp)
  have hnlt : ¬ ((FieldsFunc longFileSplit loc).length < 3) := by omega
  have hfmt2 : fmt2 = (FieldsFunc stringSplit raw).set pe
      (Join [] ["[".data,
        ((FieldsFunc longFileSplit loc).drop
          ((FieldsFunc longFileSplit loc).length - 3)).getD 0 [], "]".data,
        "[".data,
        ((FieldsFunc longFileSplit loc).drop
          ((FieldsFunc longFileSplit loc).length - 3)).getD 1 [], "]".data,
        "[:".data,
        ((FieldsFunc longFileSplit loc).drop
          ((FieldsFunc longFileSplit loc).length - 3)).getD 2 [], "]".data,
        "\t".data]) := by
    unfold modernRewrite at hrw
    rw [if_neg hnlt] at hrw
    exact (Option.some.inj hrw).symm
  have hlocmem : loc ∈ FieldsFunc stringSplit raw := List.getElem?_mem hloc
  have hlocclean : ∀ c ∈ loc, stringSplit c = false := fun c hc =>
    ((fieldsFunc_sound stringSplit raw loc hlocmem).2 c hc).1
  have hmi : ∀ i, i < 3 →
      ((FieldsFunc longFileSplit loc).drop
        ((FieldsFunc longFileSplit loc).length - 3)).getD i [] ∈
        FieldsFunc longFileSplit loc := by
    intro i hi
    have hlen : ((FieldsFunc longFileSplit loc).drop
        ((FieldsFunc longFileSplit loc).length - 3)).length = 3 := by
      rw [List.length_drop]; omega
    have hilt : i < ((FieldsFunc longFileSplit loc).drop
        ((FieldsFunc longFileSplit loc).length - 3)).length := by omega
    rw [List.getD_eq_getElem?_getD, List.getElem?_eq_getElem hilt, Option.getD_some]
    exact List.mem_of_mem_drop (List.getElem_mem hilt)
  have hmiclean : ∀ i, i < 3 → ∀ c ∈
      ((FieldsFunc longFileSplit loc).drop
        ((FieldsFunc longFileSplit loc).length - 3)).getD i [],
      stringSplit c = false := by
    intro i hi c hc
    exact hlocclean c ((fieldsFunc_sound longFileSplit loc _ (hmi i hi)).2 c hc).2
  intro t ht
  rw [hfmt2] at ht
  rcases List.mem_or_eq_of_mem_set ht with ht | ht
  · exact ⟨(fieldsFunc_sound stringSplit raw t ht).1, fun c hc =>
      ((fieldsFunc_sound stringSplit raw t ht).2 c hc).1⟩
  · subst ht
    constructor
    · rw [bracket_eq]
      simp
    · intro c hc
      rcases mem_bracket hc with hc | hc | hc | hc | hc | hc | hc
      · exact hmiclean 0 (by omega) c hc
      · exact hmiclean 1 (by omega) c hc
      · exact hmiclean 2 (by omega) c hc
      · subst hc; decide
      · subst hc; decide
      · subst hc; decide
      · subst hc; decide

/-- Joining nonempty space-free tokens and re-tokenizing on spaces is the
identity on the joined line. -/
theorem join_roundtrip_of_clean (ts : List (List Char)) (hne : ts ≠ [])
    (hclean : ∀ t ∈ ts, t ≠ [] ∧ ∀ c ∈ t, stringSplit c = false) :
    Join " ".data (FieldsFunc stringSplit (Join " ".data ts)) = Join " ".data ts := by
  have hd : (" ".data : List Char) = [' '] := rfl
  rw [hd, fieldsFunc_join stringSplit ' ' (by decide) ts hne hclean]

/-- Claim C7: every line produced by the join step of the sink write path
under `NoColor` round-trips: tokenizing it on spaces (discarding empty
fields) and re-joining the tokens with single spaces reproduces the line
byte-for-byte. -/
theorem C7_roundtrip (lt : logType) (raw out : List Char)
    (h : defaultLoggerWrite lt colorFormat.NoColor raw = some out ∨
      modernLoggerWrite lt colorFormat.NoColor raw = some out) :
    Join " ".data (FieldsFunc stringSplit out) = out := by
  rcases h with h | h
  · rcases hpe : linePrefixEnd raw with _ | pe
    · rw [show defaultLoggerWrite lt colorFormat.NoColor raw = none by
        simp [defaultLoggerWrite, hpe]] at h
      exact absurd h (by simp)
    · have hout : out = Join " ".data (FieldsFunc stringSplit raw) := by
        have heq : defaultLoggerWrite lt colorFormat.NoColor raw =
            some (Join " ".data (FieldsFunc stringSplit raw)) := by
          simp [defaultLoggerWrite, hpe, addColor]
        rw [heq] at h
        exact (Option.some.inj h).symm
      have h4 := (linePrefixEnd_eq_some hpe).1
      rw [hout]
      exact join_roundtrip_of_clean _ (by
          intro hnil
          rw [hnil] at h4
          simp at h4)
        (fun t ht => ⟨(fieldsFunc_sound stringSplit raw t ht).1, fun c hc =>
          ((fieldsFunc_sound stringSplit raw t ht).2 c hc).1⟩)
  · rcases hpe : linePrefixEnd raw with _ | pe
    · rw [show modernLoggerWrite lt colorFormat.NoColor raw = none by
        simp [modernLoggerWrite, hpe]] at h
      exact absurd h (by simp)
    · rcases hloc : (FieldsFunc stringSplit raw)[pe]? with _ | loc
      · rw [show modernLoggerWrite lt colorFormat.NoColor raw = none by
          simp [modernLoggerWrite, hpe, hloc]] at h
        exact absurd h (by simp)
      · rcases hrw : modernRewrite (FieldsFunc stringSplit raw) pe loc with _ | fmt2
        · rw [show modernLoggerWrite lt colorFormat.NoColor raw = none by
            simp [modernLoggerWrite, hpe, hloc, hrw]] at h
          exact absurd h (by simp)
        · have hout : out = Join " ".data fmt2 := by
            have heq : modernLoggerWrite lt colorFormat.NoColor raw =
                some (Join " ".data fmt2) := by
              simp [modernLoggerWrite, hpe, hloc, hrw, addColor]
            rw [heq] at h
            exact (Option.some.inj h).symm
          have h4 := (linePrefixEnd_eq_some hpe).1
          have hlenf : fmt2.length = (FieldsFunc stringSplit raw).length := by
            have h3 : 3 ≤ (FieldsFunc longFileSplit loc).length :=
              modernRewrite_isSome.mp (by rw [hrw]; simp)
            unfold modernRewrite at hrw
            rw [if_neg (by omega)] at hrw
            rw [← Option.some.inj hrw]
            simp
          rw [hout]
          exact join_roundtrip_of_clean _ (by
              intro hnil
              rw [hnil] at hlenf
              simp at hlenf
              omega)
            (modernRewrite_tokens_clean hloc hrw)

/-- Witness for C7 at a concrete raw log line through the Default-format
sink. -/
theorem C7_witness :
    (defaultLoggerWrite logType.INFO colorFormat.NoColor
        "INFO: 2024/01/01 00:00:00 /a/b.go:10: hi".data =
          some "INFO: 2024/01/01 00:00:00 /a/b.go:10: hi".data ∨
      modernLoggerWrite logType.INFO colorFormat.NoColor
        "INFO: 2024/01/01 00:00:00 /a/b.go:10: hi".data =
          some "INFO: 2024/01/01 00:00:00 /a/b.go:10: hi".data) ∧
      Join " ".data (FieldsFunc stringSplit
        "INFO: 2024/01/01 00:00:00 /a/b.go:10: hi".data) =
        "INFO: 2024/01/01 00:00:00 /a/b.go:10: hi".data :=
  ⟨Or.inl (by decide),
    C7_roundtrip logType.INFO "INFO: 2024/01/01 00:00:00 /a/b.go:10: hi".data
      "INFO: 2024/01/01 00:00:00 /a/b.go:10: hi".data (Or.inl (by decide))⟩

/-- Claim C8: when the color scheme is `NoColor`, `addColor` is the identity
function: for every severity, every prefix-end index and every token
sequence, the token sequence is returned unchanged. -/
theorem C8_addColor_NoColor_identity (lType : logType) (prefixEnd : Nat)
    (message : List (List Char)) :
    addColor colorFormat.NoColor lType prefixEnd message = message := rfl

/-- Claim C6: `V(level)` is active iff the configured `LogLevel` is ≥ `level`;
in particular with `LogLevel = 2`, `V 2` is active, `V 3` is inactive and
`V 0` is active. -/
theorem C6_V_active_iff :
    (∀ logLevel level : Int, V logLevel level = true ↔ level ≤ logLevel) ∧
      V 2 2 = true ∧ V 2 3 = false ∧ V 2 0 = true := by
  refine ⟨fun logLevel level => ?_, by decide, by decide, by decide⟩
  simp [V, ge_iff_le]

/-- The newline-completion step panics exactly on the empty formatted
buffer. -/
theorem printfNewline_eq_none_iff (formatted : List Char) :
    printfNewline formatted = none ↔ formatted = [] := by
  rcases hl : formatted.getLast? with _ | c
  · have hemp : formatted = [] := by
      by_contra hne
      have hS := List.getLast?_isSome.mpr hne
      rw [hl] at hS
      exact absurd hS (by simp)
    simp [printfNewline, hemp]
  · have hne : formatted ≠ [] := by
      intro h
      subst h
      simp at hl
    have hred : printfNewline formatted =
        if c = '\n' then some formatted else some (formatted ++ ['\n']) := by
      unfold printfNewline
      rw [hl]
    rw [hred]
    constructor
    · intro h
      split at h <;> exact absurd h (by simp)
    · intro h
      exact absurd h hne

/-- Claim C10: `Infof`, `Errorf`, `Fatalf` and `Exitf` (and the
`Verbose`-guarded variants, when active) index the formatted buffer at
`length - 1` without an emptiness check, so exactly the calls whose
printf-formatted result is empty panic with an out-of-bounds index
instead of logging an empty line. -/
theorem C10_printf_empty_panic :
    (∀ formatted : List Char, Infof formatted = none ↔ formatted = []) ∧
      (∀ formatted : List Char, Errorf formatted = none ↔ formatted = []) ∧
      (∀ formatted : List Char, Fatalf formatted = none ↔ formatted = []) ∧
      (∀ formatted : List Char, Exitf formatted = none ↔ formatted = []) ∧
      Verbose.Infof true [] = none ∧ Verbose.Errorf true [] = none ∧
      Verbose.Fatalf true [] = none ∧ Verbose.Exitf true [] = none := by
  refine ⟨?_, ?_, ?_, ?_, by decide, by decide, by decide, by decide⟩ <;>
    intro formatted <;>
    simp [Infof, Errorf, Fatalf, Exitf, Option.map_eq_none',
      printfNewline_eq_none_iff]

/-- Counterexample to claim C1 as stated: a `Fatal`-family call performs no
`os.Exit` at all — at the concrete input `"boom"`, the traces of `Fatal`,
`Fatalln` and `FatalDepth` contain no exit event, and `Fatalf` produces
only the write of the completed line. -/
theorem C1_counterexample :
    exitEvents (Fatal "boom".data) = [] ∧
      exitEvents (Fatalln "boom".data) = [] ∧
      exitEvents (FatalDepth 2 "boom".data) = [] ∧
      Fatalf "boom".data = some [Event.write logType.FATAL "boom\n".data] ∧
      Event.exit 1 ∉ Fatal "boom".data := by decide

/-- Claim C1 amended: every `Exit`-family call (`Exit`, `ExitDepth`,
`Exitln`, `Exitf`) terminates the process with exit status 1, exactly once,
and only after the write of the log line has been issued; the
`Fatal`-family calls (`Fatal`, `FatalDepth`, `Fatalln`, `Fatalf`) only emit
the log line and never terminate the process. -/
theorem C1_amended (msg : List Char) (depth : Int) (formatted : List Char)
    (hfmt : formatted ≠ []) :
    logsThenExitsOnce (Exit msg) ∧ logsThenExitsOnce (ExitDepth depth msg) ∧
      logsThenExitsOnce (Exitln msg) ∧
      (∃ t, Exitf formatted = some t ∧ logsThenExitsOnce t) ∧
      neverExits (Fatal msg) ∧ neverExits (FatalDepth depth msg) ∧
      neverExits (Fatalln msg) ∧
      (∀ t, Fatalf formatted = some t → neverExits t) := by
  have hnl : (printfNewline formatted).isSome := by
    rcases hn : printfNewline formatted with _ | m
    · exact absurd ((printfNewline_eq_none_iff formatted).mp hn) hfmt
    · simp
  obtain ⟨m, hm⟩ := Option.isSome_iff_exists.mp hnl
  refine ⟨⟨msg, rfl⟩, ⟨msg, rfl⟩, ⟨msg, rfl⟩,
    ⟨[Event.write logType.FATAL m, Event.exit 1], by simp [Exitf, hm], ⟨m, rfl⟩⟩,
    rfl, rfl, rfl, ?_⟩
  intro t ht
  simp [Fatalf, hm] at ht
  subst ht
  rfl

/-- Witness for the amended C1 at concrete inputs. -/
theorem C1_amended_witness :
    "x".data ≠ ([] : List Char) ∧
      (logsThenExitsOnce (Exit "boom".data) ∧
        logsThenExitsOnce (ExitDepth 2 "boom".data) ∧
        logsThenExitsOnce (Exitln "boom".data) ∧
        (∃ t, Exitf "x".data = some t ∧ logsThenExitsOnce t) ∧
        neverExits (Fatal "boom".data) ∧ neverExits (FatalDepth 2 "boom".data) ∧
        neverExits (Fatalln "boom".data) ∧
        (∀ t, Fatalf "x".data = some t → neverExits t)) :=
  ⟨by decide, C1_amended "boom".data 2 "x".data (by decide)⟩

/-- Claim C2 (code bug): with `LOG_LEVEL="abc"`, initialization does not
fall back to level 0 after emitting a self-referential error line; the
`Error(...)` call happens while `errorLog` is still nil (`setupLogger`
only runs at the end of `init`), so init panics. -/
theorem C2_init_nil_panic :
    initLogging "abc".data = InitOutcome.nilPointerPanic ∧
      Atoi "abc".data = none ∧
      initLogging "abc".data ≠ InitOutcome.completed 0 := by decide

/-- Counterexample to claim C3 as stated: a sink constructed while `Format`
was `DefaultFormat` does not process a later write under the new
`ModernFormat` mode installed by `SetFormat`; the two results differ on a
concrete well-formed line. -/
theorem C3_counterexample :
    sinkWrite (LogFilter DefaultFormat logType.INFO) colorFormat.NoColor
        "INFO: 2024/01/01 00:00:00 /a/b.go:10: hi".data ≠
      stateWrite (SetFormat ⟨DefaultFormat, setupLogger DefaultFormat⟩ ModernFormat)
        logType.INFO colorFormat.NoColor
        "INFO: 2024/01/01 00:00:00 /a/b.go:10: hi".data := by decide

/-- Claim C3 amended: the layout mode is consulted at sink construction
(`LogFilter` switches on `Format` then), not at write time.  `SetFormat`
makes a change effective for subsequent lines by rebuilding all five sinks
via `setupLogger`: writes through the rebuilt sinks are processed under
the new mode, while any sink retained from before the change keeps its
construction-time behavior — a state whose sinks were not rebuilt writes
identically regardless of the `Format` field. -/
theorem C3_amended :
    (∀ (st : LoggerState) (format : Int) (ltype : logType) (cf : colorFormat)
        (raw : List Char),
      stateWrite (SetFormat st format) ltype cf raw =
        sinkWrite (LogFilter format ltype) cf raw) ∧
      (∀ st st' : LoggerState, st.sinks = st'.sinks →
        ∀ (ltype : logType) (cf : colorFormat) (raw : List Char),
          stateWrite st ltype cf raw = stateWrite st' ltype cf raw) := by
  refine ⟨fun st format ltype cf raw => rfl, ?_⟩
  intro st st' hs ltype cf raw
  simp [stateWrite, hs]

/-- Witness for the amended C3 at concrete states and a concrete line. -/
theorem C3_amended_witness :
    stateWrite (SetFormat ⟨DefaultFormat, setupLogger DefaultFormat⟩ ModernFormat)
        logType.INFO colorFormat.NoColor "x".data =
      sinkWrite (LogFilter ModernFormat logType.INFO) colorFormat.NoColor "x".data ∧
      stateWrite ⟨DefaultFormat, setupLogger DefaultFormat⟩ logType.INFO
          colorFormat.NoColor "x".data =
        stateWrite ⟨ModernFormat, setupLogger DefaultFormat⟩ logType.INFO
          colorFormat.NoColor "x".data :=
  ⟨C3_amended.1 ⟨DefaultFormat, setupLogger DefaultFormat⟩ ModernFormat logType.INFO
      colorFormat.NoColor "x".data,
    C3_amended.2 ⟨DefaultFormat, setupLogger DefaultFormat⟩
      ⟨ModernFormat, setupLogger DefaultFormat⟩ rfl logType.INFO
      colorFormat.NoColor "x".data⟩

end Cloudglog
